import Mathlib

/-!
Shallow embedding of the `one_net_occupation_data_DW` ETL pipeline
(`src/etl/transform.py`, `src/etl/load.py`, `src/etl/run_pipeline.py`)
and proofs of the specification claims about it.

Modelling conventions:
* Python `dict` rows become Lean structures; a missing key is `none`.
* SQLite tables become Lean lists of row structures; SQL `DELETE`,
  `INSERT`, `INSERT ... ON CONFLICT DO UPDATE` and `INSERT OR REPLACE`
  are modelled explicitly on those lists.
* Python floats are modelled as `Rat`; `float(...)` string parsing is a
  decimal/scientific parser into `Rat` (non-finite spellings such as
  "inf" are rejected; "NAN" is already filtered by the source itself).
* All functions are total; the source's cleaning paths never raise.
-/

/-- A value that can sit in a raw extracted row (SQLite yields strings,
integers, or NULL for the columns this pipeline touches). -/
inductive PyVal where
  | vstr : String → PyVal
  | vint : Int → PyVal
  | vnone : PyVal
deriving DecidableEq, Repr

/-- Python `str(v)`. -/
def pyStr : PyVal → String
  | PyVal.vstr s => s
  | PyVal.vint n => toString n
  | PyVal.vnone => "None"

/-- Python truthiness of a raw value. -/
def pyTruthy : PyVal → Bool
  | PyVal.vstr s => s ≠ ""
  | PyVal.vint n => n ≠ 0
  | PyVal.vnone => false

/-- Models `str(r.get(k, ""))`. -/
def getStr (v : Option PyVal) : String := pyStr (v.getD (PyVal.vstr ""))

/-- Models `str(r.get(k, "") or "")`. -/
def getStrOr (v : Option PyVal) : String :=
  let w := v.getD (PyVal.vstr "")
  if pyTruthy w then pyStr w else ""

/-- Python whitespace characters recognised by `str.strip()` / `\s`
(ASCII subset: space, tab, newline, carriage return, vertical tab,
form feed). -/
def isPySpace (c : Char) : Bool :=
  c == ' ' || c == '\t' || c == '\n' || c == '\r' ||
  c == Char.ofNat 11 || c == Char.ofNat 12

/-- Strip leading and trailing whitespace from a character list. -/
def stripWS (cs : List Char) : List Char :=
  ((cs.dropWhile isPySpace).reverse.dropWhile isPySpace).reverse

/-- Python `s.strip()`. -/
def pyStrip (s : String) : String := ⟨stripWS s.data⟩

/-- Python `s.upper()` (ASCII case mapping), defined by structural
recursion over the characters so it evaluates by kernel reduction. -/
def pyUpper (s : String) : String := ⟨s.data.map Char.toUpper⟩

/-- Replace every maximal run of whitespace by a single space
(`re.sub(r"\s+", " ", ·)`). -/
def collapseWS (cs : List Char) : List Char :=
  cs.foldr
    (fun c acc =>
      if isPySpace c then
        match acc with
        | ' ' :: _ => acc
        | _ => ' ' :: acc
      else c :: acc)
    []

/-- `transform.normalize_space`: collapse internal whitespace and trim
ends. -/
def normalize_space (s : String) : String := ⟨collapseWS (stripWS s.data)⟩

/-- Value of a digit string read in base 10. -/
def digitsVal (cs : List Char) : Nat :=
  cs.foldl (fun a c => a * 10 + (c.toNat - 48)) 0

/-- Parse an unsigned decimal mantissa (`digits`, `digits.digits`,
`.digits`, `digits.`) into a numerator/denominator pair whose
denominator is the power of ten given by the fractional digits. -/
def parseMantissa (cs : List Char) : Option (Int × Nat) :=
  let ip := cs.takeWhile (fun c => c ≠ '.')
  match cs.dropWhile (fun c => c ≠ '.') with
  | [] =>
    if ip ≠ [] ∧ ip.all Char.isDigit then some (((digitsVal ip : Nat) : Int), 1)
    else none
  | _ :: frac =>
    if (ip ≠ [] ∨ frac ≠ []) ∧ ip.all Char.isDigit ∧ frac.all Char.isDigit then
      some (((digitsVal ip * 10 ^ frac.length + digitsVal frac : Nat) : Int),
            10 ^ frac.length)
    else none

/-- Parse an optionally signed decimal exponent. -/
def parseExp (cs : List Char) : Option Int :=
  match cs with
  | '+' :: ds =>
    if ds ≠ [] ∧ ds.all Char.isDigit then some (Int.ofNat (digitsVal ds)) else none
  | '-' :: ds =>
    if ds ≠ [] ∧ ds.all Char.isDigit then some (-(Int.ofNat (digitsVal ds))) else none
  | ds =>
    if ds ≠ [] ∧ ds.all Char.isDigit then some (Int.ofNat (digitsVal ds)) else none

/-- Model of Python `float(s)` on an already-stripped string, as an
exact rational (finite decimal/scientific forms only). -/
def parseFloat (s : String) : Option Rat :=
  let cs := s.data
  let mant := cs.takeWhile (fun c => ¬ (c = 'e' ∨ c = 'E'))
  let rest := cs.dropWhile (fun c => ¬ (c = 'e' ∨ c = 'E'))
  let mval : Option (Int × Nat) :=
    match mant with
    | '+' :: m => parseMantissa m
    | '-' :: m => (parseMantissa m).map (fun q => (-q.1, q.2))
    | m => parseMantissa m
  match mval, rest with
  | none, _ => none
  | some q, [] => some (mkRat q.1 q.2)
  | some q, _ :: ecs =>
    match parseExp ecs with
    | none => none
    | some e =>
      if 0 ≤ e then some (mkRat (q.1 * (10 : Int) ^ e.toNat) q.2)
      else some (mkRat q.1 (q.2 * 10 ^ (-e).toNat))

/-- `transform._to_float`: best-effort float conversion;
`None`/`''`/NaN-like become `none`. -/
def to_float (v : Option PyVal) : Option Rat :=
  match v with
  | none => none
  | some PyVal.vnone => none
  | some pv =>
    let s := pyStrip (pyStr pv)
    if s = "" ∨ pyUpper s = "NAN" then none
    else parseFloat s

/-- `transform._norm_flag`: normalise flag-like values to `'Y'`/`'N'`
or `none`. -/
def norm_flag (v : Option PyVal) : Option String :=
  match v with
  | none => none
  | some PyVal.vnone => none
  | some pv =>
    let s := pyUpper (pyStrip (pyStr pv))
    if s = "Y" ∨ s = "N" then some s
    else if s = "T" ∨ s = "TRUE" ∨ s = "1" then some "Y"
    else if s = "F" ∨ s = "FALSE" ∨ s = "0" then some "N"
    else none

/-- Split a character list on a separator character. -/
def splitOnChar (sep : Char) : List Char → List (List Char)
  | [] => [[]]
  | c :: cs =>
    let r := splitOnChar sep cs
    if c = sep then [] :: r
    else
      match r with
      | [] => [[c]]
      | h :: t => (c :: h) :: t

/-- Gregorian leap-year rule. -/
def isLeap (y : Nat) : Bool :=
  (y % 4 == 0 && y % 100 != 0) || y % 400 == 0

/-- Days in a month of a given year. -/
def daysInMonth (y m : Nat) : Nat :=
  if m = 2 then (if isLeap y then 29 else 28)
  else if m = 4 ∨ m = 6 ∨ m = 9 ∨ m = 11 then 30
  else 31

/-- Zero-pad the decimal rendering of `n` to width `w`. -/
def padZeros (n w : Nat) : String :=
  let s := toString n
  ⟨List.replicate (w - s.length) '0'⟩ ++ s

/-- Validate `strptime`-style year/month/day digit components and
render the ISO date, as `datetime.date.isoformat` would. -/
def mkDate (ys ms ds : List Char) : Option String :=
  if ys ≠ [] ∧ ys.length ≤ 4 ∧ ys.all Char.isDigit ∧
     ms ≠ [] ∧ ms.length ≤ 2 ∧ ms.all Char.isDigit ∧
     ds ≠ [] ∧ ds.length ≤ 2 ∧ ds.all Char.isDigit then
    let y := digitsVal ys
    let m := digitsVal ms
    let d := digitsVal ds
    if 1 ≤ y ∧ 1 ≤ m ∧ m ≤ 12 ∧ 1 ≤ d ∧ d ≤ daysInMonth y m then
      some (padZeros y 4 ++ "-" ++ padZeros m 2 ++ "-" ++ padZeros d 2)
    else none
  else none

/-- Exact `\d{4}-\d{2}-\d{2}` shape. -/
def isoShape : List Char → Bool
  | [a, b, c, d, e, f, g, h, i, j] =>
    a.isDigit && b.isDigit && c.isDigit && d.isDigit && e == '-' &&
    f.isDigit && g.isDigit && h == '-' && i.isDigit && j.isDigit
  | _ => false

/-- `transform._norm_date_iso`: normalise a date to `YYYY-MM-DD` when
possible (formats `%Y-%m-%d`, `%m/%d/%Y`, `%Y/%m/%d`), else keep an
ISO-looking string as-is, else `none`. -/
def norm_date_iso (v : Option PyVal) : Option String :=
  match v with
  | none => none
  | some PyVal.vnone => none
  | some pv =>
    let s := pyStrip (pyStr pv)
    if s = "" then none
    else
      let dash := splitOnChar '-' s.data
      let slash := splitOnChar '/' s.data
      let t1 := match dash with | [a, b, c] => mkDate a b c | _ => none
      let t2 := match slash with | [a, b, c] => mkDate c a b | _ => none
      let t3 := match slash with | [a, b, c] => mkDate a b c | _ => none
      match t1 with
      | some r => some r
      | none =>
        match t2 with
        | some r => some r
        | none =>
          match t3 with
          | some r => some r
          | none => if isoShape s.data then some s else none

/-- `transform._ALLOWED_SCALES = {"IM", "LV"}` membership. -/
def allowedScale (s : String) : Bool := s == "IM" || s == "LV"

/-- Core `^\d{2}-\d{4}\.\d{2}$` shape. -/
def matchesSOC : List Char → Bool
  | [a, b, c, d, e, f, g, h, i, j] =>
    a.isDigit && b.isDigit && c == '-' && d.isDigit && e.isDigit &&
    f.isDigit && g.isDigit && h == '.' && i.isDigit && j.isDigit
  | _ => false

/-- `transform._is_valid_soc`: Python `re.match` with `$`, which also
accepts a single trailing newline after the pattern. -/
def is_valid_soc (s : String) : Bool :=
  matchesSOC s.data ||
  (match s.data.reverse with
   | '\n' :: rest => matchesSOC rest.reverse
   | _ => false)

/-- A raw occupation row as extracted (string-or-absent fields; the
extractor coerces these columns with `str(...).strip()` upstream, and
`normalize_space` maps both a missing key and Python `None` to `""`). -/
structure RawOcc where
  onetsoc_code : Option String
  title : Option String
  description : Option String
deriving DecidableEq, Repr

/-- A cleaned occupation record as produced by
`clean_occupation_records`. -/
structure OccClean where
  onetsoc_code : String
  title : String
  description : String
  major_group_code : String
deriving DecidableEq, Repr

/-- `code.split("-")[0][:2] if "-" in code and len(code) >= 2 else None`. -/
def major_group_of (code : String) : Option String :=
  if code.data.contains '-' ∧ 2 ≤ code.length then
    some ⟨(code.data.takeWhile (fun c => c ≠ '-')).take 2⟩
  else none

/-- The loop body of `clean_occupation_records` for one surviving row. -/
def mkCleanOcc (r : RawOcc) : OccClean :=
  let code := normalize_space (r.onetsoc_code.getD "")
  let title := normalize_space (r.title.getD "")
  let desc := normalize_space (r.description.getD "")
  let mg :=
    match major_group_of code with
    | some m => if m = "" then "unavailable" else m
    | none => "unavailable"
  ⟨code, title, (if desc = "" then "unavailable" else desc), mg⟩

/-- Normalised code of a raw occupation row. -/
def occCode (r : RawOcc) : String := normalize_space (r.onetsoc_code.getD "")

/-- A raw occupation row survives cleaning when its normalised code and
title are both non-empty. -/
def occValidB (r : RawOcc) : Bool :=
  occCode r ≠ "" && normalize_space (r.title.getD "") ≠ ""

/-- The loop of `transform.clean_occupation_records`, with the `seen`
set made explicit. -/
def clean_occ_aux (seen : List String) : List RawOcc → List OccClean
  | [] => []
  | r :: rs =>
    if occValidB r then
      if occCode r ∈ seen then clean_occ_aux seen rs
      else mkCleanOcc r :: clean_occ_aux (occCode r :: seen) rs
    else clean_occ_aux seen rs

/-- `transform.clean_occupation_records`: dedupe by code, trim fields,
derive `major_group_code`. -/
def clean_occupation_records (records : List RawOcc) : List OccClean :=
  clean_occ_aux [] records

/-- A raw SKA (skills/knowledge/abilities) rating row as extracted:
the twelve columns selected by the extractor, each possibly absent. -/
structure RawSKA where
  onetsoc_code : Option PyVal
  element_id : Option PyVal
  scale_id : Option PyVal
  data_value : Option PyVal
  n : Option PyVal
  standard_error : Option PyVal
  lower_ci_bound : Option PyVal
  upper_ci_bound : Option PyVal
  recommend_suppress : Option PyVal
  not_relevant : Option PyVal
  date_updated : Option PyVal
  domain_source : Option PyVal
deriving DecidableEq, Repr

/-- A cleaned SKA record as produced by `clean_ska_records`
(including the `_domain` tag key). -/
structure CleanSKA where
  onetsoc_code : String
  element_id : String
  scale_id : String
  data_value : Option Rat
  n : Option Rat
  standard_error : Option Rat
  lower_ci_bound : Option Rat
  upper_ci_bound : Option Rat
  recommend_suppress : String
  not_relevant : String
  date_updated : String
  domain_source : String
  domain_tag : String
deriving DecidableEq, Repr

/-- `transform.clean_ska_records`: clean SKA records without changing
grain (trim keys, uppercase scale, coerce numerics, normalise flags and
dates, swap reversed CI bounds, substitute the `unavailable` sentinel). -/
def clean_ska_records : List RawSKA → String → List CleanSKA
  | [], _ => []
  | r :: rs, domain =>
    let rest := clean_ska_records rs domain
    let code := normalize_space (getStr r.onetsoc_code)
    let elem := normalize_space (getStr r.element_id)
    let scale := pyUpper (normalize_space (getStr r.scale_id))
    if code = "" ∨ elem = "" ∨ allowedScale scale = false then rest
    else
      let dv := to_float r.data_value
      let nv := to_float r.n
      let se := to_float r.standard_error
      let lcb := to_float r.lower_ci_bound
      let ucb := to_float r.upper_ci_bound
      let rsf := norm_flag r.recommend_suppress
      let nrf := norm_flag r.not_relevant
      let du := norm_date_iso r.date_updated
      let src0 := normalize_space (getStr r.domain_source)
      let src : Option String := if src0 = "" then none else some src0
      let swapped : Option Rat × Option Rat :=
        match lcb, ucb with
        | some a, some b => if a > b then (some b, some a) else (some a, some b)
        | a, b => (a, b)
      { onetsoc_code := code
        element_id := elem
        scale_id := scale
        data_value := dv
        n := nv
        standard_error := se
        lower_ci_bound := swapped.1
        upper_ci_bound := swapped.2
        recommend_suppress := rsf.getD "unavailable"
        not_relevant := nrf.getD "unavailable"
        date_updated := du.getD "unavailable"
        domain_source := src.getD "unavailable"
        domain_tag := pyUpper domain } :: rest

/-- An invalid SKA row: the original raw row plus the `error_reason`
and `domain` keys set by `split_and_clean_ska_records`. -/
structure InvalidSKA where
  row : RawSKA
  error_reason : String
  domain : String
deriving DecidableEq, Repr

/-- `transform.split_and_clean_ska_records`: partition raw SKA rows into
`(valid_cleaned, invalid_raw_with_reason)`, checking in order
missing code, SOC shape, missing element, allowed scale, then cleaning. -/
def split_and_clean_ska_records : List RawSKA → String → List CleanSKA × List InvalidSKA
  | [], _ => ([], [])
  | r :: rest, domain =>
    let acc := split_and_clean_ska_records rest domain
    let code_raw := pyStrip (getStrOr r.onetsoc_code)
    let elem_raw := pyStrip (getStrOr r.element_id)
    let scale_raw := pyUpper (pyStrip (getStrOr r.scale_id))
    if code_raw = "" then
      (acc.1, ⟨r, "missing_onetsoc_code", pyUpper domain⟩ :: acc.2)
    else if is_valid_soc code_raw = false then
      (acc.1, ⟨r, "invalid_soc_format", pyUpper domain⟩ :: acc.2)
    else if elem_raw = "" then
      (acc.1, ⟨r, "missing_element_id", pyUpper domain⟩ :: acc.2)
    else if allowedScale scale_raw = false then
      (acc.1, ⟨r, "invalid_scale_id", pyUpper domain⟩ :: acc.2)
    else
      let cleaned := clean_ska_records [r] domain
      if cleaned = [] then
        (acc.1, ⟨r, "cleaning_failed", pyUpper domain⟩ :: acc.2)
      else (cleaned ++ acc.1, acc.2)

/-! ## The star-schema store (`src/etl/load.py`) -/

/-- A `stg_occupation_data` row. -/
structure OccStgRow where
  onetsoc_code : String
  title : String
  description : String
deriving DecidableEq, Repr

/-- A `dim_occupation` row.
Modelled from the spec: the schema script `warehouse/schema.sql` is not
under `src/`; per spec §3 the Occupation dimension carries a
store-assigned surrogate identity (`occupation_id`) plus the natural key
and descriptive attributes. -/
structure DimOccRow where
  occupation_id : Nat
  onetsoc_code : String
  title : String
  description : String
  major_group_code : String
deriving DecidableEq, Repr

/-- A `dim_major_group` row. -/
structure MGRow where
  major_group_code : String
  code_full : String
  name : String
deriving DecidableEq, Repr

/-- A parsed row of the `soc_major_groups.csv` lookup source
(columns `code_full,name`). -/
structure MGCsv where
  code_full : String
  name : String
deriving DecidableEq, Repr

/-- A `stg_scales_reference` row. -/
structure ScaleRefRow where
  scale_id : String
  scale_name : String
  minimum : Option Rat
  maximum : Option Rat
deriving DecidableEq, Repr

/-- A `dim_scale` row. -/
structure DimScaleRow where
  scale_id : String
  name : String
  min_value : Option Rat
  max_value : Option Rat
  step : Option Rat
deriving DecidableEq, Repr

/-- A `dim_element` row. -/
structure DimElementRow where
  element_id : String
  domain : String
deriving DecidableEq, Repr

/-- A level-scale-anchor row (both `stg_level_scale_anchors` and
`dim_element_scale` have exactly these columns). -/
structure AnchorRow where
  element_id : String
  scale_id : String
  anchor_value : Option Rat
  anchor_description : Option String
deriving DecidableEq, Repr

/-- A staged SKA row (`stg_skills` / `stg_knowledge` / `stg_abilities`):
the twelve inserted columns, without the transient `_domain` tag. -/
structure StgSKARow where
  onetsoc_code : String
  element_id : String
  scale_id : String
  data_value : Option Rat
  n : Option Rat
  standard_error : Option Rat
  lower_ci_bound : Option Rat
  upper_ci_bound : Option Rat
  recommend_suppress : String
  not_relevant : String
  date_updated : String
  domain_source : String
deriving DecidableEq, Repr

/-- The twelve-column staging projection of a cleaned SKA record. -/
def toStgRow (c : CleanSKA) : StgSKARow :=
  ⟨c.onetsoc_code, c.element_id, c.scale_id, c.data_value, c.n,
   c.standard_error, c.lower_ci_bound, c.upper_ci_bound,
   c.recommend_suppress, c.not_relevant, c.date_updated, c.domain_source⟩

/-- A `stg_invalid_ska` diagnostics row: the raw column values (absent
keys become NULL) plus the `domain` and `error_reason` tags. -/
structure InvalidStgRow where
  domain : String
  onetsoc_code : Option PyVal
  element_id : Option PyVal
  scale_id : Option PyVal
  data_value : Option PyVal
  n : Option PyVal
  standard_error : Option PyVal
  lower_ci_bound : Option PyVal
  upper_ci_bound : Option PyVal
  recommend_suppress : Option PyVal
  not_relevant : Option PyVal
  date_updated : Option PyVal
  domain_source : Option PyVal
  error_reason : String
deriving DecidableEq, Repr

/-- The per-record key normalisation of `load_stg_invalid_ska`
(`{k: None if k not in r else r[k] for k in cols}`). -/
def toInvalidStgRow (i : InvalidSKA) : InvalidStgRow :=
  ⟨i.domain, i.row.onetsoc_code, i.row.element_id, i.row.scale_id,
   i.row.data_value, i.row.n, i.row.standard_error, i.row.lower_ci_bound,
   i.row.upper_ci_bound, i.row.recommend_suppress, i.row.not_relevant,
   i.row.date_updated, i.row.domain_source, i.error_reason⟩

/-- A `fact_occupation_element_rating` row. -/
structure FactRow where
  occupation_id : Nat
  element_id : String
  scale_id : String
  data_value : Option Rat
  n : Option Rat
  standard_error : Option Rat
  lower_ci_bound : Option Rat
  upper_ci_bound : Option Rat
  recommend_suppress : String
  not_relevant : String
  date_updated : String
  domain_source : String
deriving DecidableEq, Repr

/-- The whole SQLite store as lists of rows, plus the surrogate-id
sequence for `dim_occupation`. -/
structure Store where
  stg_occupation_data : List OccStgRow
  stg_skills : List StgSKARow
  stg_knowledge : List StgSKARow
  stg_abilities : List StgSKARow
  stg_level_scale_anchors : List AnchorRow
  stg_scales_reference : List ScaleRefRow
  stg_invalid_ska : List InvalidStgRow
  dim_occupation : List DimOccRow
  dim_major_group : List MGRow
  dim_element : List DimElementRow
  dim_scale : List DimScaleRow
  dim_element_scale : List AnchorRow
  fact_occupation_element_rating : List FactRow
  next_occ_id : Nat
deriving DecidableEq, Repr

/-- `load.init_db`, Modelled from the spec where the schema script is
concerned: `warehouse/schema.sql` is not under `src/`; the code removes
any existing database file and applies the schema script, which per
spec §6 yields a freshly (re)initialized store whose prior contents are
discarded entirely.  Surrogate rowids restart at 1. -/
def emptyStore : Store :=
  ⟨[], [], [], [], [], [], [], [], [], [], [], [], [], 1⟩

/-- Generic first-occurrence deduplication (SQL `DISTINCT` / `UNION`
de-duplication, with first-scan order as the model's row order). -/
def dedupFirstAux {α : Type} [DecidableEq α] (seen : List α) : List α → List α
  | [] => []
  | a :: as =>
    if a ∈ seen then dedupFirstAux seen as
    else a :: dedupFirstAux (a :: seen) as

/-- First-occurrence deduplication of a list. -/
def dedupFirst {α : Type} [DecidableEq α] (l : List α) : List α :=
  dedupFirstAux [] l

/-- SQL aggregate `MIN` over a group, ignoring NULLs. -/
def sqlMin (l : List (Option Rat)) : Option Rat :=
  l.foldl
    (fun acc x =>
      match acc, x with
      | none, x => x
      | some a, none => some a
      | some a, some b => some (min a b))
    none

/-- SQL aggregate `MAX` over a group, ignoring NULLs. -/
def sqlMax (l : List (Option Rat)) : Option Rat :=
  l.foldl
    (fun acc x =>
      match acc, x with
      | none, x => x
      | some a, none => some a
      | some a, some b => some (max a b))
    none

/-- `INSERT ... ON CONFLICT(key) DO UPDATE` for one incoming row: the
conflicting row (unique under the key's index) is updated in place by
`upd`, otherwise the row is appended. -/
def upsertBy {α κ : Type} [DecidableEq κ] (key : α → κ) (upd : α → α → α) :
    List α → α → List α
  | [], r => [r]
  | x :: xs, r =>
    if key x = key r then upd x r :: xs else x :: upsertBy key upd xs r

/-- The row observed at key `k` after upserting the rows `js` (in
order) into the table `t`: the last incoming row with key `k`, else the
prior row at `k`. -/
def lastUpsert {α κ : Type} [DecidableEq κ] (key : α → κ) (js t : List α) (k : κ) :
    Option α :=
  match js.reverse.find? (fun j => decide (key j = k)) with
  | some j => some j
  | none => t.find? (fun x => decide (key x = k))

/-- `load.load_stg_occupation`: truncate and load staging for
occupations; returns count loaded. -/
def load_stg_occupation (st : Store) (records : List OccClean) : Store × Nat :=
  ({ st with stg_occupation_data :=
      records.map (fun r => ⟨r.onetsoc_code, r.title, r.description⟩) },
   records.length)

/-- The `DO UPDATE` clause of `load_dim_occupation`: overwrite title,
description and major group of the first (unique) conflicting row. -/
def updateOccRow : List DimOccRow → OccClean → List DimOccRow
  | [], _ => []
  | d :: ds, r =>
    if d.onetsoc_code = r.onetsoc_code then
      { d with title := r.title, description := r.description,
               major_group_code := r.major_group_code } :: ds
    else d :: updateOccRow ds r

/-- One upsert step of `load_dim_occupation`; a fresh row receives the
next surrogate id (Modelled from the spec: surrogate identity assigned
by the store, the schema script being outside `src/`). -/
def upsertDimOcc (s : Store) (r : OccClean) : Store :=
  if s.dim_occupation.any (fun d => d.onetsoc_code == r.onetsoc_code) then
    { s with dim_occupation := updateOccRow s.dim_occupation r }
  else
    { s with
      dim_occupation := s.dim_occupation ++
        [⟨s.next_occ_id, r.onetsoc_code, r.title, r.description, r.major_group_code⟩],
      next_occ_id := s.next_occ_id + 1 }

/-- `load.load_dim_occupation`: upsert occupations by `onetsoc_code`;
returns count processed. -/
def load_dim_occupation (st : Store) (records : List OccClean) : Store × Nat :=
  (records.foldl upsertDimOcc st, records.length)

/-- The `DO UPDATE` clause of `load_dim_major_group`. -/
def updMG (x r : MGRow) : MGRow :=
  { x with code_full := r.code_full, name := r.name }

/-- `load.load_dim_major_group`: load the SOC major-group lookup from
the CSV (absent file ⇒ `none` ⇒ zero rows); keeps rows with
`len(code_full) >= 2` and a non-empty name, keyed by the 2-character
prefix; returns count loaded. -/
def load_dim_major_group (st : Store) (csv : Option (List MGCsv)) : Store × Nat :=
  match csv with
  | none => (st, 0)
  | some rows =>
    let rs : List MGRow :=
      rows.filterMap (fun r =>
        let full := pyStrip r.code_full
        let name := pyStrip r.name
        if 2 ≤ full.length ∧ name ≠ "" then
          some ⟨⟨full.data.take 2⟩, full, name⟩
        else none)
    ({ st with dim_major_group :=
        rs.foldl (upsertBy MGRow.major_group_code updMG) st.dim_major_group },
     rs.length)

/-- `load.load_stg_skills`: returns 0 untouched on empty input, else
truncate-and-load; returns count loaded. -/
def load_stg_skills (st : Store) (records : List CleanSKA) : Store × Nat :=
  if records = [] then (st, 0)
  else ({ st with stg_skills := records.map toStgRow }, records.length)

/-- `load.load_stg_knowledge`: same contract as `load_stg_skills`. -/
def load_stg_knowledge (st : Store) (records : List CleanSKA) : Store × Nat :=
  if records = [] then (st, 0)
  else ({ st with stg_knowledge := records.map toStgRow }, records.length)

/-- `load.load_stg_abilities`: same contract as `load_stg_skills`. -/
def load_stg_abilities (st : Store) (records : List CleanSKA) : Store × Nat :=
  if records = [] then (st, 0)
  else ({ st with stg_abilities := records.map toStgRow }, records.length)

/-- `load.load_stg_level_scale_anchors`: returns 0 untouched on empty
input, else truncate-and-load. -/
def load_stg_level_scale_anchors (st : Store) (records : List AnchorRow) : Store × Nat :=
  if records = [] then (st, 0)
  else ({ st with stg_level_scale_anchors := records }, records.length)

/-- `load.load_stg_scales_reference`: returns 0 untouched on empty
input, else truncate-and-load. -/
def load_stg_scales_reference (st : Store) (records : List ScaleRefRow) : Store × Nat :=
  if records = [] then (st, 0)
  else ({ st with stg_scales_reference := records }, records.length)

/-- `load.load_stg_invalid_ska`: truncate, then (if non-empty) load the
invalid SKA rows with absent keys defaulting to NULL. -/
def load_stg_invalid_ska (st : Store) (records : List InvalidSKA) : Store × Nat :=
  ({ st with stg_invalid_ska := records.map toInvalidStgRow }, records.length)

/-- The `SELECT ... WHERE scale_id IN ('IM','LV') GROUP BY scale_id,
scale_name` result rows of `load_dim_scale_from_staging`. -/
def scaleGroupRows (stg : List ScaleRefRow) : List DimScaleRow :=
  let filtered := stg.filter (fun r => allowedScale r.scale_id)
  let keys := dedupFirst (filtered.map (fun r => (r.scale_id, r.scale_name)))
  keys.map (fun k =>
    let grp := filtered.filter (fun r => r.scale_id == k.1 && r.scale_name == k.2)
    ⟨k.1, k.2, sqlMin (grp.map (fun r => r.minimum)),
     sqlMax (grp.map (fun r => r.maximum)), none⟩)

/-- `load.load_dim_scale_from_staging`: delete `dim_scale`, insert the
IM/LV aggregate rows, return `SELECT COUNT(*) FROM dim_scale`. -/
def load_dim_scale_from_staging (st : Store) : Store × Nat :=
  let rows := scaleGroupRows st.stg_scales_reference
  ({ st with dim_scale := rows }, rows.length)

/-- The distinct `(element_id, domain)` pairs of the `UNION` over the
three SKA staging tables.  The SQL `UNION` de-duplicates; its output
order is unspecified and is modelled here as first-occurrence scan
order (skills, then knowledge, then abilities). -/
def skaElementPairs (st : Store) : List (String × String) :=
  dedupFirst
    (dedupFirst (st.stg_skills.map (fun r => (r.element_id, "SKILL"))) ++
     dedupFirst (st.stg_knowledge.map (fun r => (r.element_id, "KNOWLEDGE"))) ++
     dedupFirst (st.stg_abilities.map (fun r => (r.element_id, "ABILITY"))))

/-- `INSERT OR REPLACE` into `dim_element` keyed by `element_id`. -/
def replaceDimElement (t : List DimElementRow) (r : DimElementRow) : List DimElementRow :=
  (t.filter (fun e => e.element_id ≠ r.element_id)) ++ [r]

/-- `load.load_dim_element`: upsert `dim_element` from distinct element
ids in SKA staging; returns the number of distinct `(element, domain)`
pairs observed. -/
def load_dim_element (st : Store) : Store × Nat :=
  let pairs := skaElementPairs st
  ({ st with dim_element :=
      pairs.foldl (fun t p => replaceDimElement t ⟨p.1, p.2⟩) st.dim_element },
   pairs.length)

/-- Natural key of an anchor row. -/
def akey (r : AnchorRow) : String × String × Option Rat :=
  (r.element_id, r.scale_id, r.anchor_value)

/-- The `DO UPDATE` clause of `load_dim_element_scale_anchor`: only the
description is refreshed. -/
def updAnchor (x r : AnchorRow) : AnchorRow :=
  { x with anchor_description := r.anchor_description }

/-- The join-gated `SELECT` of `load_dim_element_scale_anchor`: one
output row per staged anchor per matching element row per matching
scale row. -/
def anchorJoined (st : Store) : List AnchorRow :=
  st.stg_level_scale_anchors.flatMap (fun a =>
    (st.dim_element.filter (fun e => e.element_id == a.element_id)).flatMap (fun _ =>
      (st.dim_scale.filter (fun s => s.scale_id == a.scale_id)).map (fun _ => a)))

/-- `load.load_dim_element_scale_anchor`: upsert the gated anchors into
`dim_element_scale`; returns the number of staging rows considered. -/
def load_dim_element_scale_anchor (st : Store) : Store × Nat :=
  ({ st with dim_element_scale :=
      (anchorJoined st).foldl (upsertBy akey updAnchor) st.dim_element_scale },
   st.stg_level_scale_anchors.length)

/-- Natural key (grain) of a fact row. -/
def factKey (r : FactRow) : Nat × String × String :=
  (r.occupation_id, r.element_id, r.scale_id)

/-- The `DO UPDATE` clause of the fact upsert: every measurement and
metadata field is overwritten with the incoming (`excluded`) value. -/
def updFact (x r : FactRow) : FactRow :=
  { x with data_value := r.data_value, n := r.n,
           standard_error := r.standard_error,
           lower_ci_bound := r.lower_ci_bound,
           upper_ci_bound := r.upper_ci_bound,
           recommend_suppress := r.recommend_suppress,
           not_relevant := r.not_relevant,
           date_updated := r.date_updated,
           domain_source := r.domain_source }

/-- The fact row selected for one staged rating row joined to one
occupation-dimension row. -/
def mkFactRow (d : DimOccRow) (s : StgSKARow) : FactRow :=
  ⟨d.occupation_id, s.element_id, s.scale_id, s.data_value, s.n,
   s.standard_error, s.lower_ci_bound, s.upper_ci_bound,
   s.recommend_suppress, s.not_relevant, s.date_updated, s.domain_source⟩

/-- The `FROM stg JOIN dim_occupation ON natural code` select list. -/
def joinFact (dims : List DimOccRow) (stg : List StgSKARow) : List FactRow :=
  stg.flatMap (fun s =>
    (dims.filter (fun d => d.onetsoc_code == s.onetsoc_code)).map
      (fun d => mkFactRow d s))

/-- `load.load_fact_occupation_element_rating`: count the three joins,
then upsert skills, knowledge and abilities in turn into the fact
table; returns the total join count. -/
def load_fact_occupation_element_rating (st : Store) : Store × Nat :=
  let js := joinFact st.dim_occupation st.stg_skills
  let jk := joinFact st.dim_occupation st.stg_knowledge
  let ja := joinFact st.dim_occupation st.stg_abilities
  let f1 := js.foldl (upsertBy factKey updFact) st.fact_occupation_element_rating
  let f2 := jk.foldl (upsertBy factKey updFact) f1
  let f3 := ja.foldl (upsertBy factKey updFact) f2
  ({ st with fact_occupation_element_rating := f3 },
   js.length + jk.length + ja.length)

/-! ## The pipeline driver (`src/etl/run_pipeline.py`) -/

/-- The extracted inputs of one pipeline run (extraction is an external
collaborator per spec §6; `major_groups = none` models an absent
`soc_major_groups.csv`). -/
structure PipelineInput where
  occupation : List RawOcc
  skills : List RawSKA
  knowledge : List RawSKA
  abilities : List RawSKA
  scales_ref : List ScaleRefRow
  anchors : List AnchorRow
  major_groups : Option (List MGCsv)
deriving DecidableEq, Repr

/-- `run_pipeline.run`: clean, split, re-initialise the store via
`init_db` (which discards `prev` entirely), load staging, diagnostics,
dimensions and the fact table in the source's order.  The staging
validation checkpoint is read-only and does not affect the store. -/
def run (_prev : Store) (inp : PipelineInput) : Store :=
  let records := clean_occupation_records inp.occupation
  let sk := if inp.skills ≠ [] then split_and_clean_ska_records inp.skills "skill" else ([], [])
  let kn := if inp.knowledge ≠ [] then split_and_clean_ska_records inp.knowledge "knowledge" else ([], [])
  let ab := if inp.abilities ≠ [] then split_and_clean_ska_records inp.abilities "ability" else ([], [])
  let st := emptyStore
  let st := (load_stg_occupation st records).1
  let st := if sk.1 ≠ [] then (load_stg_skills st sk.1).1 else st
  let st := if kn.1 ≠ [] then (load_stg_knowledge st kn.1).1 else st
  let st := if ab.1 ≠ [] then (load_stg_abilities st ab.1).1 else st
  let invalid_rows := sk.2 ++ kn.2 ++ ab.2
  let st := if invalid_rows ≠ [] then (load_stg_invalid_ska st invalid_rows).1 else st
  let st := if inp.anchors ≠ [] then (load_stg_level_scale_anchors st inp.anchors).1 else st
  let st :=
    if inp.scales_ref ≠ [] then
      let st := (load_stg_scales_reference st inp.scales_ref).1
      (load_dim_scale_from_staging st).1
    else st
  let st := (load_dim_major_group st inp.major_groups).1
  let st := (load_dim_occupation st records).1
  let st := (load_dim_element st).1
  let st := if inp.anchors ≠ [] then (load_dim_element_scale_anchor st).1 else st
  (load_fact_occupation_element_rating st).1

/-! ## Concrete sample data used by witnesses and counterexamples -/

/-- Count of staged rows having a matching occupation-dimension row. -/
def matchedCount (dims : List DimOccRow) (stg : List StgSKARow) : Nat :=
  stg.countP (fun s => dims.any (fun d => d.onetsoc_code == s.onetsoc_code))

/-- A raw SKA row with every key absent. -/
def noneSKA : RawSKA :=
  ⟨none, none, none, none, none, none, none, none, none, none, none, none⟩

/-- The spec's CI-bound example row: scale `lv`, reversed bounds. -/
def exRow9 : RawSKA :=
  { noneSKA with
    onetsoc_code := some (PyVal.vstr "15-1211.00")
    element_id := some (PyVal.vstr "2.A.1.a")
    scale_id := some (PyVal.vstr "lv")
    lower_ci_bound := some (PyVal.vstr "4.5")
    upper_ci_bound := some (PyVal.vstr "3.0") }

/-- The spec's routing example row: empty occupation code. -/
def exRowNoCode : RawSKA :=
  { noneSKA with
    onetsoc_code := some (PyVal.vstr "")
    element_id := some (PyVal.vstr "2.A.1.a")
    scale_id := some (PyVal.vstr "IM") }

/-- The spec's occupation example row (messy title, empty description). -/
def exOcc1 : RawOcc :=
  ⟨some "15-1211.00", some "  Computer Systems Analysts ", some ""⟩

/-- The spec's duplicate-code occupation example row. -/
def exOcc2 : RawOcc := ⟨some "15-1211.00", some "dup", none⟩

/-- The spec's occupation example input. -/
def exOccInput : List RawOcc := [exOcc1, exOcc2]

/-- A staged skills row for concrete stores. -/
def sampleStg : StgSKARow :=
  ⟨"15-1211.00", "2.A.1.a", "IM", some 3, none, none, none, none,
   "unavailable", "unavailable", "unavailable", "unavailable"⟩

/-- A cleaned skills record for concrete loader calls. -/
def cSample : CleanSKA :=
  ⟨"15-1211.00", "2.A.1.a", "IM", some 3, none, none, none, none,
   "unavailable", "unavailable", "unavailable", "unavailable", "SKILL"⟩

/-- A store with one occupation dimension row and one staged skill. -/
def stW : Store :=
  { emptyStore with
    dim_occupation := [⟨1, "15-1211.00", "Analysts", "d", "15"⟩]
    stg_skills := [sampleStg] }

/-- A store whose element and scale dimensions cover one staged anchor. -/
def stW6 : Store :=
  { emptyStore with
    dim_element := [⟨"2.A.1.a", "SKILL"⟩]
    dim_scale := [⟨"LV", "Level", some 0, some 7, none⟩]
    stg_level_scale_anchors := [⟨"2.A.1.a", "LV", some 1, some "anchor text"⟩] }

/-- The staged anchor of `stW6`. -/
def aW : AnchorRow := ⟨"2.A.1.a", "LV", some 1, some "anchor text"⟩

/-- Staging where scale id `IM` appears under two scale names. -/
def storeC7 : Store :=
  { emptyStore with
    stg_scales_reference :=
      [⟨"IM", "A", some 1, some 5⟩, ⟨"IM", "B", some 1, some 5⟩] }

/-- A store with a pre-existing staged skills row. -/
def storeC8 : Store := { emptyStore with stg_skills := [sampleStg] }

/-! ## Helper lemmas -/

/-- `find?` distributes over append. -/
theorem find?_append {α : Type} (l₁ l₂ : List α) (p : α → Bool) :
    (l₁ ++ l₂).find? p =
      match l₁.find? p with
      | some a => some a
      | none => l₂.find? p := by
  induction l₁ with
  | nil => simp
  | cons x xs ih =>
    by_cases h : p x
    · simp [List.find?_cons, h]
    · simp only [List.cons_append, List.find?_cons, h]
      simpa using ih

/-- The updated row of an `upsertBy` keeps its key. -/
theorem factKey_updFact (x r : FactRow) : factKey (updFact x r) = factKey x := rfl

/-- When the keys agree, `updFact` makes the row equal the incoming row. -/
theorem updFact_eq (x r : FactRow) (h : factKey x = factKey r) : updFact x r = r := by
  cases x
  cases r
  simp only [factKey, Prod.mk.injEq] at h
  obtain ⟨h1, h2, h3⟩ := h
  simp [updFact, h1, h2, h3]

/-- The updated anchor row keeps its key. -/
theorem akey_updAnchor (x r : AnchorRow) : akey (updAnchor x r) = akey x := rfl

/-- When the keys agree, `updAnchor` makes the row equal the incoming
row (every non-key anchor column is the description). -/
theorem updAnchor_eq (x r : AnchorRow) (h : akey x = akey r) : updAnchor x r = r := by
  cases x
  cases r
  simp only [akey, Prod.mk.injEq] at h
  obtain ⟨h1, h2, h3⟩ := h
  simp [updAnchor, h1, h2, h3]

/-- Looking up the upserted key finds exactly the incoming row. -/
theorem find?_upsertBy_self {α κ : Type} [DecidableEq κ] (key : α → κ) (upd : α → α → α)
    (hk : ∀ x r, key (upd x r) = key x)
    (he : ∀ x r, key x = key r → upd x r = r)
    (t : List α) (j : α) :
    (upsertBy key upd t j).find? (fun x => decide (key x = key j)) = some j := by
  induction t with
  | nil => simp [upsertBy]
  | cons x xs ih =>
    by_cases h : key x = key j
    · simp [upsertBy, h, List.find?_cons, hk, he x j h]
    · simp [upsertBy, h, List.find?_cons, ih]

/-- Looking up any other key is unaffected by an upsert. -/
theorem find?_upsertBy_ne {α κ : Type} [DecidableEq κ] (key : α → κ) (upd : α → α → α)
    (hk : ∀ x r, key (upd x r) = key x)
    (t : List α) (j : α) (k : κ) (h : key j ≠ k) :
    (upsertBy key upd t j).find? (fun x => decide (key x = k)) =
      t.find? (fun x => decide (key x = k)) := by
  induction t with
  | nil => simp [upsertBy, h]
  | cons x xs ih =>
    by_cases hxk : key x = k
    · have hxj : ¬ key x = key j := fun hh => h (hh ▸ hxk)
      have hd : (decide (key x = k)) = true := decide_eq_true hxk
      simp only [upsertBy, if_neg hxj, List.find?_cons, hd]
    · by_cases hxj : key x = key j
      · have hu : ¬ key (upd x j) = k := by rw [hk]; exact hxk
        have h1 : (decide (key (upd x j) = k)) = false := decide_eq_false hu
        have h2 : (decide (key x = k)) = false := decide_eq_false hxk
        simp only [upsertBy, if_pos hxj, List.find?_cons, h1, h2]
      · have h2 : (decide (key x = k)) = false := decide_eq_false hxk
        simp only [upsertBy, if_neg hxj, List.find?_cons, h2]
        exact ih

/-- Characterisation of a fold of upserts: the final row at key `k` is
the last incoming row with that key, else the prior row. -/
theorem find?_foldl_upsertBy {α κ : Type} [DecidableEq κ] (key : α → κ) (upd : α → α → α)
    (hk : ∀ x r, key (upd x r) = key x)
    (he : ∀ x r, key x = key r → upd x r = r)
    (js : List α) (t : List α) (k : κ) :
    (js.foldl (upsertBy key upd) t).find? (fun x => decide (key x = k)) =
      lastUpsert key js t k := by
  induction js generalizing t with
  | nil => simp [lastUpsert]
  | cons j rest ih =>
    rw [List.foldl_cons, ih]
    simp only [lastUpsert, List.reverse_cons]
    rw [find?_append]
    by_cases hr : ∃ x, rest.reverse.find? (fun j => decide (key j = k)) = some x
    · obtain ⟨x, hx⟩ := hr
      rw [hx]
    · rw [Option.eq_none_iff_forall_not_mem.mpr (fun x hx => hr ⟨x, hx⟩)]
      by_cases hjk : key j = k
      · subst hjk
        simp only [List.find?_singleton, decide_eq_true_eq, if_pos rfl]
        exact find?_upsertBy_self key upd hk he t j
      · simp only [List.find?_singleton, decide_eq_true_eq, if_neg hjk]
        exact find?_upsertBy_ne key upd hk t j k hjk

/-- Keys after an upsert come from the table or the incoming row. -/
theorem mem_map_key_upsertBy {α κ : Type} [DecidableEq κ] (key : α → κ) (upd : α → α → α)
    (hk : ∀ x r, key (upd x r) = key x)
    (t : List α) (j : α) (k : κ)
    (h : k ∈ (upsertBy key upd t j).map key) :
    k ∈ t.map key ∨ k = key j := by
  induction t with
  | nil =>
    simp only [upsertBy, List.map_cons, List.map_nil, List.mem_singleton] at h
    exact Or.inr h
  | cons x xs ih =>
    by_cases hx : key x = key j
    · simp only [upsertBy, if_pos hx, List.map_cons, List.mem_cons, hk] at h
      rcases h with h | h
      · exact Or.inl (List.mem_cons.mpr (Or.inl h))
      · exact Or.inl (List.mem_cons.mpr (Or.inr h))
    · simp only [upsertBy, if_neg hx, List.map_cons, List.mem_cons] at h
      rcases h with h | h
      · exact Or.inl (List.mem_cons.mpr (Or.inl h))
      · rcases ih h with h2 | h2
        · exact Or.inl (List.mem_cons.mpr (Or.inr h2))
        · exact Or.inr h2

/-- An upsert preserves key uniqueness. -/
theorem nodup_map_key_upsertBy {α κ : Type} [DecidableEq κ] (key : α → κ) (upd : α → α → α)
    (hk : ∀ x r, key (upd x r) = key x)
    (t : List α) (j : α) (h : (t.map key).Nodup) :
    ((upsertBy key upd t j).map key).Nodup := by
  induction t with
  | nil => simp [upsertBy]
  | cons x xs ih =>
    simp only [List.map_cons, List.nodup_cons] at h
    by_cases hx : key x = key j
    · simp only [upsertBy, if_pos hx, List.map_cons, List.nodup_cons, hk]
      exact h
    · simp only [upsertBy, if_neg hx, List.map_cons, List.nodup_cons]
      refine ⟨fun hmem => ?_, ih h.2⟩
      rcases mem_map_key_upsertBy key upd hk xs j (key x) hmem with h2 | h2
      · exact h.1 h2
      · exact hx h2

/-- A fold of upserts preserves key uniqueness. -/
theorem nodup_map_key_foldl_upsertBy {α κ : Type} [DecidableEq κ] (key : α → κ) (upd : α → α → α)
    (hk : ∀ x r, key (upd x r) = key x)
    (js : List α) (t : List α) (h : (t.map key).Nodup) :
    ((js.foldl (upsertBy key upd) t).map key).Nodup := by
  induction js generalizing t with
  | nil => exact h
  | cons j rest ih =>
    exact ih (upsertBy key upd t j) (nodup_map_key_upsertBy key upd hk t j h)

/-- Keys after a fold of upserts come from the table or the incoming rows. -/
theorem mem_map_key_foldl_upsertBy {α κ : Type} [DecidableEq κ] (key : α → κ) (upd : α → α → α)
    (hk : ∀ x r, key (upd x r) = key x)
    (js : List α) (t : List α) (k : κ)
    (h : k ∈ (js.foldl (upsertBy key upd) t).map key) :
    k ∈ t.map key ∨ k ∈ js.map key := by
  induction js generalizing t with
  | nil => exact Or.inl h
  | cons j rest ih =>
    rcases ih (upsertBy key upd t j) h with h2 | h2
    · rcases mem_map_key_upsertBy key upd hk t j k h2 with h3 | h3
      · exact Or.inl h3
      · exact Or.inr (by simp [h3])
    · exact Or.inr (by simp [h2])

/-- Members of the deduplicated list come from the original list. -/
theorem mem_of_mem_dedupFirstAux {α : Type} [DecidableEq α] (l : List α) (seen : List α) (x : α)
    (h : x ∈ dedupFirstAux seen l) : x ∈ l := by
  induction l generalizing seen with
  | nil => simp [dedupFirstAux] at h
  | cons a as ih =>
    by_cases ha : a ∈ seen
    · simp only [dedupFirstAux, if_pos ha] at h
      exact List.mem_cons.mpr (Or.inr (ih seen h))
    · simp only [dedupFirstAux, if_neg ha] at h
      rcases List.mem_cons.mp h with h2 | h2
      · exact List.mem_cons.mpr (Or.inl h2)
      · exact List.mem_cons.mpr (Or.inr (ih _ h2))

/-- Members of the deduplicated list avoid the `seen` accumulator. -/
theorem not_seen_of_mem_dedupFirstAux {α : Type} [DecidableEq α] (l : List α) (seen : List α) (x : α)
    (h : x ∈ dedupFirstAux seen l) : x ∉ seen := by
  induction l generalizing seen with
  | nil => simp [dedupFirstAux] at h
  | cons a as ih =>
    by_cases ha : a ∈ seen
    · simp only [dedupFirstAux, if_pos ha] at h
      exact ih seen h
    · simp only [dedupFirstAux, if_neg ha] at h
      rcases List.mem_cons.mp h with h2 | h2
      · subst h2; exact ha
      · intro hx
        exact (ih (a :: seen) h2) (List.mem_cons.mpr (Or.inr hx))

/-- First-occurrence deduplication yields no duplicates. -/
theorem nodup_dedupFirstAux {α : Type} [DecidableEq α] (l : List α) (seen : List α) :
    (dedupFirstAux seen l).Nodup := by
  induction l generalizing seen with
  | nil => simp [dedupFirstAux]
  | cons a as ih =>
    by_cases ha : a ∈ seen
    · simp only [dedupFirstAux, if_pos ha]
      exact ih seen
    · simp only [dedupFirstAux, if_neg ha]
      refine List.nodup_cons.mpr ⟨fun hmem => ?_, ih (a :: seen)⟩
      exact (not_seen_of_mem_dedupFirstAux as (a :: seen) a hmem)
        (List.mem_cons.mpr (Or.inl rfl))

/-- Every unseen member of the list survives deduplication. -/
theorem mem_dedupFirstAux_of_mem {α : Type} [DecidableEq α] (l : List α) (seen : List α) (x : α)
    (hx : x ∈ l) (hs : x ∉ seen) : x ∈ dedupFirstAux seen l := by
  induction l generalizing seen with
  | nil => cases hx
  | cons a as ih =>
    by_cases ha : a ∈ seen
    · simp only [dedupFirstAux, if_pos ha]
      rcases List.mem_cons.mp hx with h2 | h2
      · exact absurd (h2 ▸ ha) hs
      · exact ih seen h2 hs
    · simp only [dedupFirstAux, if_neg ha]
      rcases List.mem_cons.mp hx with h2 | h2
      · exact List.mem_cons.mpr (Or.inl h2)
      · by_cases hxa : x = a
        · exact List.mem_cons.mpr (Or.inl hxa)
        · refine List.mem_cons.mpr (Or.inr (ih (a :: seen) h2 ?_))
          intro hmem
          rcases List.mem_cons.mp hmem with h3 | h3
          · exact hxa h3
          · exact hs h3

/-- The cleaned code of a surviving occupation row. -/
theorem mkCleanOcc_code (r : RawOcc) : (mkCleanOcc r).onetsoc_code = occCode r := rfl

/-- Codes produced by the occupation-cleaning loop avoid the `seen` set. -/
theorem clean_occ_aux_not_seen (l : List RawOcc) (seen : List String) (o : OccClean)
    (h : o ∈ clean_occ_aux seen l) : o.onetsoc_code ∉ seen := by
  induction l generalizing seen with
  | nil => simp [clean_occ_aux] at h
  | cons r rs ih =>
    by_cases hv : occValidB r = true
    · by_cases hs : occCode r ∈ seen
      · simp only [clean_occ_aux, hv, if_true, if_pos hs] at h
        exact ih seen h
      · simp only [clean_occ_aux, hv, if_true, if_neg hs] at h
        rcases List.mem_cons.mp h with h2 | h2
        · subst h2; rw [mkCleanOcc_code]; exact hs
        · intro hx
          exact (ih (occCode r :: seen) h2) (List.mem_cons.mpr (Or.inr hx))
    · simp only [clean_occ_aux, hv, if_false] at h
      exact ih seen h

/-- The occupation-cleaning loop yields pairwise-distinct codes. -/
theorem clean_occ_aux_nodup (l : List RawOcc) (seen : List String) :
    ((clean_occ_aux seen l).map OccClean.onetsoc_code).Nodup := by
  induction l generalizing seen with
  | nil => simp [clean_occ_aux]
  | cons r rs ih =>
    by_cases hv : occValidB r = true
    · by_cases hs : occCode r ∈ seen
      · simp only [clean_occ_aux, hv, if_true, if_pos hs]
        exact ih seen
      · simp only [clean_occ_aux, hv, if_true, if_neg hs, List.map_cons, List.nodup_cons]
        refine ⟨fun hmem => ?_, ih (occCode r :: seen)⟩
        obtain ⟨o, ho, hoc⟩ := List.mem_map.mp hmem
        have := clean_occ_aux_not_seen rs (occCode r :: seen) o ho
        rw [mkCleanOcc_code] at hoc
        exact this (hoc ▸ List.mem_cons.mpr (Or.inl rfl))
    · simp only [clean_occ_aux, hv, if_false]
      exact ih seen

/-- Every output of the occupation-cleaning loop is the cleaned image of
the first valid input row carrying its code. -/
theorem clean_occ_aux_first (l : List RawOcc) (seen : List String) (o : OccClean)
    (h : o ∈ clean_occ_aux seen l) :
    ∃ rr, l.find? (fun x => occValidB x && (occCode x == o.onetsoc_code)) = some rr ∧
      occValidB rr = true ∧ o = mkCleanOcc rr := by
  induction l generalizing seen with
  | nil => simp [clean_occ_aux] at h
  | cons r rs ih =>
    by_cases hv : occValidB r = true
    · by_cases hs : occCode r ∈ seen
      · simp only [clean_occ_aux, hv, if_true, if_pos hs] at h
        have hns := clean_occ_aux_not_seen rs seen o h
        have hne : (occCode r == o.onetsoc_code) = false := by
          apply beq_eq_false_iff_ne.mpr
          intro he
          exact hns (he ▸ hs)
        obtain ⟨rr, h1, h2, h3⟩ := ih seen h
        refine ⟨rr, ?_, h2, h3⟩
        simp [List.find?_cons, hv, hne, h1]
      · simp only [clean_occ_aux, hv, if_true, if_neg hs] at h
        rcases List.mem_cons.mp h with h2 | h2
        · refine ⟨r, ?_, hv, h2⟩
          have heq : (occCode r == o.onetsoc_code) = true := by
            rw [h2, mkCleanOcc_code]; exact beq_self_eq_true _
          simp [List.find?_cons, hv, heq]
        · have hns := clean_occ_aux_not_seen rs (occCode r :: seen) o h2
          have hne : (occCode r == o.onetsoc_code) = false := by
            apply beq_eq_false_iff_ne.mpr
            intro he
            exact hns (he ▸ List.mem_cons.mpr (Or.inl rfl))
          obtain ⟨rr, h1, h3, h4⟩ := ih (occCode r :: seen) h2
          refine ⟨rr, ?_, h3, h4⟩
          simp [List.find?_cons, hv, hne, h1]
    · have hvf : occValidB r = false := Bool.eq_false_iff.mpr hv
      simp only [clean_occ_aux, hvf, Bool.false_eq_true, if_false] at h
      obtain ⟨rr, h1, h2, h3⟩ := ih seen h
      refine ⟨rr, ?_, h2, h3⟩
      simp [List.find?_cons, hvf, h1]

/-- Every valid input row's code reaches the output of the
occupation-cleaning loop. -/
theorem clean_occ_aux_complete (l : List RawOcc) (seen : List String) (rr : RawOcc)
    (h : rr ∈ l) (hv : occValidB rr = true) (hs : occCode rr ∉ seen) :
    ∃ o ∈ clean_occ_aux seen l, o.onetsoc_code = occCode rr := by
  induction l generalizing seen with
  | nil => cases h
  | cons r rs ih =>
    by_cases hrv : occValidB r = true
    · by_cases hrs : occCode r ∈ seen
      · simp only [clean_occ_aux, hrv, if_true, if_pos hrs]
        rcases List.mem_cons.mp h with h2 | h2
        · subst h2; exact absurd hrs hs
        · exact ih seen h2 hs
      · simp only [clean_occ_aux, hrv, if_true, if_neg hrs]
        by_cases hcc : occCode rr = occCode r
        · exact ⟨mkCleanOcc r, List.mem_cons.mpr (Or.inl rfl), by rw [mkCleanOcc_code, hcc]⟩
        · rcases List.mem_cons.mp h with h2 | h2
          · exact absurd (congrArg occCode h2) hcc
          · obtain ⟨o, ho, hoc⟩ := ih (occCode r :: seen) h2 (by
              intro hmem
              rcases List.mem_cons.mp hmem with h3 | h3
              · exact hcc h3
              · exact hs h3)
            exact ⟨o, List.mem_cons.mpr (Or.inr ho), hoc⟩
    · have hvf : occValidB r = false := Bool.eq_false_iff.mpr hrv
      simp only [clean_occ_aux, hvf, Bool.false_eq_true, if_false]
      rcases List.mem_cons.mp h with h2 | h2
      · subst h2; exact absurd hv hrv
      · exact ih seen h2 hs

/-- The output codes appear in input order (as a sublist of the
normalised input codes). -/
theorem clean_occ_aux_sublist (l : List RawOcc) (seen : List String) :
    ((clean_occ_aux seen l).map OccClean.onetsoc_code).Sublist (l.map occCode) := by
  induction l generalizing seen with
  | nil => simp [clean_occ_aux]
  | cons r rs ih =>
    by_cases hv : occValidB r = true
    · by_cases hs : occCode r ∈ seen
      · simp only [clean_occ_aux, hv, if_true, if_pos hs, List.map_cons]
        exact (ih seen).cons _
      · simp only [clean_occ_aux, hv, if_true, if_neg hs, List.map_cons]
        rw [mkCleanOcc_code]
        exact (ih (occCode r :: seen)).cons₂ _
    · have hvf : occValidB r = false := Bool.eq_false_iff.mpr hv
      simp only [clean_occ_aux, hvf, Bool.false_eq_true, if_false, List.map_cons]
      exact (ih seen).cons _

/-- Under unique occupation codes, a code matches at most one dimension
row, so the filter has length 0 or 1 according to `any`. -/
theorem filter_code_length (dims : List DimOccRow) (c : String)
    (h : (dims.map DimOccRow.onetsoc_code).Nodup) :
    (dims.filter (fun d => d.onetsoc_code == c)).length =
      if dims.any (fun d => d.onetsoc_code == c) then 1 else 0 := by
  induction dims with
  | nil => simp
  | cons d ds ih =>
    simp only [List.map_cons, List.nodup_cons] at h
    by_cases hd : d.onetsoc_code = c
    · have hds : ds.filter (fun x => x.onetsoc_code == c) = [] := by
        rw [List.filter_eq_nil_iff]
        intro x hx
        simp only [beq_iff_eq]
        intro hxc
        exact h.1 (by
          rw [← hd] at hxc
          exact List.mem_map.mpr ⟨x, hx, hxc⟩)
      simp [List.filter_cons, List.any_cons, hd, hds]
    · simp only [List.filter_cons, List.any_cons, beq_iff_eq, hd]
      simp only [decide_False, Bool.false_or, if_false]
      rw [ih h.2]
      simp [beq_iff_eq, hd]

/-- Join size equals the number of staged rows with a matching
occupation, when occupation codes are unique. -/
theorem joinFact_length (dims : List DimOccRow) (stg : List StgSKARow)
    (h : (dims.map DimOccRow.onetsoc_code).Nodup) :
    (joinFact dims stg).length = matchedCount dims stg := by
  induction stg with
  | nil => simp [joinFact, matchedCount]
  | cons s ss ih =>
    simp only [joinFact, List.flatMap_cons, List.length_append, List.length_map]
    rw [filter_code_length dims s.onetsoc_code h]
    simp only [joinFact] at ih
    rw [ih]
    simp only [matchedCount, List.countP_cons]
    by_cases hs : dims.any (fun d => d.onetsoc_code == s.onetsoc_code)
    · simp [hs]; omega
    · simp [hs]

/-- Every joined anchor row passed the element and scale gates. -/
theorem anchorJoined_gate (st : Store) (j : AnchorRow) (h : j ∈ anchorJoined st) :
    (st.dim_element.any (fun e => e.element_id == j.element_id)) = true ∧
    (st.dim_scale.any (fun s2 => s2.scale_id == j.scale_id)) = true := by
  simp only [anchorJoined, List.mem_flatMap, List.mem_map, List.mem_filter] at h
  obtain ⟨a, _, ⟨e, ⟨hee, hep⟩, ⟨s2, ⟨⟨hss, hsp⟩, hja⟩⟩⟩⟩ := h
  subst hja
  constructor
  · exact List.any_eq_true.mpr ⟨e, hee, hep⟩
  · exact List.any_eq_true.mpr ⟨s2, hss, hsp⟩

/-- A single-row input to `clean_ska_records` yields zero or one record. -/
theorem clean_ska_singleton (r : RawSKA) (d : String) :
    clean_ska_records [r] d = [] ∨ ∃ c, clean_ska_records [r] d = [c] := by
  simp only [clean_ska_records]
  by_cases h : normalize_space (getStr r.onetsoc_code) = "" ∨
      normalize_space (getStr r.element_id) = "" ∨
      allowedScale (pyUpper (normalize_space (getStr r.scale_id))) = false
  · exact Or.inl (by rw [if_pos h])
  · exact Or.inr ⟨_, by rw [if_neg h]⟩

/-- `upsertDimOcc` never touches the fact table. -/
theorem fact_upsertDimOcc (s : Store) (r : OccClean) :
    (upsertDimOcc s r).fact_occupation_element_rating = s.fact_occupation_element_rating := by
  unfold upsertDimOcc; split <;> rfl

/-- `load_dim_occupation` never touches the fact table. -/
theorem fact_foldl_upsertDimOcc (records : List OccClean) (st : Store) :
    ((records.foldl upsertDimOcc st).fact_occupation_element_rating) =
      st.fact_occupation_element_rating := by
  induction records generalizing st with
  | nil => rfl
  | cons r rs ih => rw [List.foldl_cons, ih, fact_upsertDimOcc]

/-- Staging the occupation rows leaves the fact table alone. -/
theorem fact_load_stg_occupation (st : Store) (r : List OccClean) :
    ((load_stg_occupation st r).1).fact_occupation_element_rating =
      st.fact_occupation_element_rating := rfl

/-- Staging skills leaves the fact table alone. -/
theorem fact_load_stg_skills (st : Store) (r : List CleanSKA) :
    ((load_stg_skills st r).1).fact_occupation_element_rating =
      st.fact_occupation_element_rating := by
  unfold load_stg_skills; split <;> rfl

/-- Staging knowledge leaves the fact table alone. -/
theorem fact_load_stg_knowledge (st : Store) (r : List CleanSKA) :
    ((load_stg_knowledge st r).1).fact_occupation_element_rating =
      st.fact_occupation_element_rating := by
  unfold load_stg_knowledge; split <;> rfl

/-- Staging abilities leaves the fact table alone. -/
theorem fact_load_stg_abilities (st : Store) (r : List CleanSKA) :
    ((load_stg_abilities st r).1).fact_occupation_element_rating =
      st.fact_occupation_element_rating := by
  unfold load_stg_abilities; split <;> rfl

/-- Persisting diagnostics leaves the fact table alone. -/
theorem fact_load_stg_invalid_ska (st : Store) (r : List InvalidSKA) :
    ((load_stg_invalid_ska st r).1).fact_occupation_element_rating =
      st.fact_occupation_element_rating := rfl

/-- Staging anchors leaves the fact table alone. -/
theorem fact_load_stg_level_scale_anchors (st : Store) (r : List AnchorRow) :
    ((load_stg_level_scale_anchors st r).1).fact_occupation_element_rating =
      st.fact_occupation_element_rating := by
  unfold load_stg_level_scale_anchors; split <;> rfl

/-- Staging the scales reference leaves the fact table alone. -/
theorem fact_load_stg_scales_reference (st : Store) (r : List ScaleRefRow) :
    ((load_stg_scales_reference st r).1).fact_occupation_element_rating =
      st.fact_occupation_element_rating := by
  unfold load_stg_scales_reference; split <;> rfl

/-- Rebuilding the scale dimension leaves the fact table alone. -/
theorem fact_load_dim_scale (st : Store) :
    ((load_dim_scale_from_staging st).1).fact_occupation_element_rating =
      st.fact_occupation_element_rating := rfl

/-- The major-group upsert leaves the fact table alone. -/
theorem fact_load_dim_major_group (st : Store) (csv : Option (List MGCsv)) :
    ((load_dim_major_group st csv).1).fact_occupation_element_rating =
      st.fact_occupation_element_rating := by
  cases csv <;> rfl

/-- The occupation-dimension upsert leaves the fact table alone. -/
theorem fact_load_dim_occupation (st : Store) (records : List OccClean) :
    ((load_dim_occupation st records).1).fact_occupation_element_rating =
      st.fact_occupation_element_rating :=
  fact_foldl_upsertDimOcc records st

/-- The element-dimension upsert leaves the fact table alone. -/
theorem fact_load_dim_element (st : Store) :
    ((load_dim_element st).1).fact_occupation_element_rating =
      st.fact_occupation_element_rating := rfl

/-- The anchor-dimension upsert leaves the fact table alone. -/
theorem fact_load_dim_element_scale_anchor (st : Store) :
    ((load_dim_element_scale_anchor st).1).fact_occupation_element_rating =
      st.fact_occupation_element_rating := rfl

/-! ## Claim theorems -/

/-- C1: running the full pipeline twice on identical inputs yields an
identical final store — every staging table, dimension table and the
fact table are equal after the second run, because `init_db` discards
the prior store entirely and each subsequent step is a deterministic
function of the extracted inputs. -/
theorem pipeline_idempotent (prev : Store) (inp : PipelineInput) :
    run (run prev inp) inp = run prev inp := rfl

/-- C10: `split_and_clean_ska_records` places each input row in exactly
one of its two outputs (`len valid + len invalid = len input`), for
every input list and domain; as a total function of the raw rows
(missing keys, `None` values, integers and unparsable numerics
included) it never raises. -/
theorem split_partition (records : List RawSKA) (domain : String) :
    (split_and_clean_ska_records records domain).1.length +
      (split_and_clean_ska_records records domain).2.length = records.length := by
  induction records with
  | nil => rfl
  | cons r rest ih =>
    rcases clean_ska_singleton r domain with hc | ⟨c, hc⟩ <;>
      (simp only [split_and_clean_ska_records]
       split_ifs <;> simp_all [List.length_append] <;> omega)

/-- C4: for every raw rating row, `split_and_clean_ska_records` routes
the row to `invalid` with exactly the first applicable reason in the
fixed order (missing code, SOC shape, missing element, allowed scale),
tagging it with the upper-cased domain; rows passing all four checks go
to the valid output, or to `invalid` with `cleaning_failed` if cleaning
yields nothing. -/
theorem rating_validation_routing (r : RawSKA) (domain : String) :
    (pyStrip (getStrOr r.onetsoc_code) = "" →
      split_and_clean_ska_records [r] domain =
        ([], [⟨r, "missing_onetsoc_code", pyUpper domain⟩])) ∧
    (pyStrip (getStrOr r.onetsoc_code) ≠ "" →
     is_valid_soc (pyStrip (getStrOr r.onetsoc_code)) = false →
      split_and_clean_ska_records [r] domain =
        ([], [⟨r, "invalid_soc_format", pyUpper domain⟩])) ∧
    (pyStrip (getStrOr r.onetsoc_code) ≠ "" →
     is_valid_soc (pyStrip (getStrOr r.onetsoc_code)) = true →
     pyStrip (getStrOr r.element_id) = "" →
      split_and_clean_ska_records [r] domain =
        ([], [⟨r, "missing_element_id", pyUpper domain⟩])) ∧
    (pyStrip (getStrOr r.onetsoc_code) ≠ "" →
     is_valid_soc (pyStrip (getStrOr r.onetsoc_code)) = true →
     pyStrip (getStrOr r.element_id) ≠ "" →
     allowedScale (pyUpper (pyStrip (getStrOr r.scale_id))) = false →
      split_and_clean_ska_records [r] domain =
        ([], [⟨r, "invalid_scale_id", pyUpper domain⟩])) ∧
    (pyStrip (getStrOr r.onetsoc_code) ≠ "" →
     is_valid_soc (pyStrip (getStrOr r.onetsoc_code)) = true →
     pyStrip (getStrOr r.element_id) ≠ "" →
     allowedScale (pyUpper (pyStrip (getStrOr r.scale_id))) = true →
      split_and_clean_ska_records [r] domain =
        (if clean_ska_records [r] domain = [] then
           ([], [⟨r, "cleaning_failed", pyUpper domain⟩])
         else (clean_ska_records [r] domain, []))) := by
  refine ⟨?_, ?_, ?_, ?_, ?_⟩ <;> intros <;>
    simp_all [split_and_clean_ska_records]

/-- C4 witness: the spec's example — a rating row with an empty
occupation code is routed to `invalid` with reason
`missing_onetsoc_code` and the upper-cased domain tag. -/
theorem rating_validation_routing_witness :
    split_and_clean_ska_records [exRowNoCode] "skill" =
      ([], [⟨exRowNoCode, "missing_onetsoc_code", "SKILL"⟩]) :=
  (rating_validation_routing exRowNoCode "skill").1 (by decide)

/-- C9: a raw rating row passing the structural checks of
`clean_ska_records` with both confidence bounds parseable cleans to a
single record whose bounds are the min/max of the parsed pair (swapped
when reversed, values preserved), with the scale upper-cased. -/
theorem ci_bound_ordering (r : RawSKA) (domain : String) (l u : Rat)
    (hcode : normalize_space (getStr r.onetsoc_code) ≠ "")
    (helem : normalize_space (getStr r.element_id) ≠ "")
    (hscale : allowedScale (pyUpper (normalize_space (getStr r.scale_id))) = true)
    (hl : to_float r.lower_ci_bound = some l)
    (hu : to_float r.upper_ci_bound = some u) :
    ∃ c, clean_ska_records [r] domain = [c] ∧
      c.lower_ci_bound = some (min l u) ∧
      c.upper_ci_bound = some (max l u) ∧
      c.scale_id = pyUpper (normalize_space (getStr r.scale_id)) := by
  simp only [clean_ska_records]
  rw [if_neg (by
    push_neg
    refine ⟨hcode, helem, ?_⟩
    simp [hscale])]
  refine ⟨_, rfl, ?_, ?_, rfl⟩ <;>
    (rw [hl, hu]
     dsimp only
     rcases le_or_lt l u with hle | hlt
     · simp [gt_iff_lt, not_lt.mpr hle, min_eq_left hle, max_eq_right hle]
     · simp [gt_iff_lt, hlt, min_eq_right hlt.le, max_eq_left hlt.le])

/-- C9 witness: the spec's example — scale `lv`, bounds `4.5`/`3.0`
clean to `lower=3.0`, `upper=4.5`, scale `LV`. -/
theorem ci_bound_ordering_witness :
    (clean_ska_records [exRow9] "skill").length = 1 ∧
    (clean_ska_records [exRow9] "skill").map (fun c => c.lower_ci_bound) =
      [some (min (mkRat 9 2) 3)] ∧
    (clean_ska_records [exRow9] "skill").map (fun c => c.upper_ci_bound) =
      [some (max (mkRat 9 2) 3)] ∧
    (clean_ska_records [exRow9] "skill").map (fun c => c.scale_id) = ["LV"] := by
  obtain ⟨c, hc, hl, hu, hs⟩ :=
    ci_bound_ordering exRow9 "skill" (mkRat 9 2) 3 (by decide) (by decide) (by decide)
      (by decide) (by decide)
  rw [hc]
  refine ⟨rfl, ?_, ?_, ?_⟩ <;> simp [hl, hu, hs] <;> decide

/-- C5: `clean_occupation_records` trims/collapses whitespace, drops
rows with empty normalised code or title, keeps only the first valid
occurrence of each code (output codes pairwise distinct, in
first-occurrence input order), and each output record is `mkCleanOcc`
of that first occurrence (which substitutes the `unavailable` sentinel
for an empty description and derives `major_group_code` from the
code's leading segment before `-`, defaulting to the sentinel). -/
theorem occupation_cleaning_contract (input : List RawOcc) :
    (((clean_occupation_records input).map OccClean.onetsoc_code).Nodup) ∧
    (∀ o ∈ clean_occupation_records input,
      ∃ rr, input.find? (fun x => occValidB x && (occCode x == o.onetsoc_code)) = some rr ∧
        occValidB rr = true ∧ o = mkCleanOcc rr) ∧
    (∀ rr ∈ input, occValidB rr = true →
      ∃ o ∈ clean_occupation_records input, o.onetsoc_code = occCode rr) ∧
    ((clean_occupation_records input).map OccClean.onetsoc_code).Sublist
      (input.map occCode) := by
  refine ⟨clean_occ_aux_nodup input [], ?_, ?_, clean_occ_aux_sublist input []⟩
  · intro o ho
    exact clean_occ_aux_first input [] o ho
  · intro rr hrr hv
    exact clean_occ_aux_complete input [] rr hrr hv (by simp)

/-- C5 witness: the spec's example input (a messy row plus a duplicate
code) cleans to exactly one record with trimmed title, description
sentinel and derived major group; the contract applies at this input. -/
theorem occupation_cleaning_contract_witness :
    ((clean_occupation_records exOccInput).map OccClean.onetsoc_code).Nodup ∧
    clean_occupation_records exOccInput ≠ [] ∧
    clean_occupation_records exOccInput =
      [⟨"15-1211.00", "Computer Systems Analysts", "unavailable", "15"⟩] := by
  obtain ⟨h1, _, h3, _⟩ := occupation_cleaning_contract exOccInput
  obtain ⟨o, ho, _⟩ := h3 exOcc1 (by decide) (by decide)
  exact ⟨h1, List.ne_nil_of_mem ho, by decide⟩

/-- C2: the fact-table grain is unique after
`load_fact_occupation_element_rating` — its row count equals the count
of distinct `(occupation_id, element_id, scale_id)` keys — for every
staging content and every prior fact table with unique keys; and every
prior state reachable by the pipeline has unique keys, since `run`
rebuilds the store from scratch and the fold of upserts preserves key
uniqueness. -/
theorem fact_grain_uniqueness :
    (∀ st : Store, (st.fact_occupation_element_rating.map factKey).Nodup →
      ((load_fact_occupation_element_rating st).1.fact_occupation_element_rating).length =
        (((load_fact_occupation_element_rating st).1.fact_occupation_element_rating).map
          factKey).dedup.length) ∧
    (∀ (prev : Store) (inp : PipelineInput),
      (((run prev inp).fact_occupation_element_rating).map factKey).Nodup) := by
  have hnodup : ∀ st : Store, (st.fact_occupation_element_rating.map factKey).Nodup →
      (((load_fact_occupation_element_rating st).1.fact_occupation_element_rating).map
        factKey).Nodup := by
    intro st h
    simp only [load_fact_occupation_element_rating]
    exact nodup_map_key_foldl_upsertBy factKey updFact factKey_updFact _ _
      (nodup_map_key_foldl_upsertBy factKey updFact factKey_updFact _ _
        (nodup_map_key_foldl_upsertBy factKey updFact factKey_updFact _ _ h))
  refine ⟨?_, ?_⟩
  · intro st h
    rw [List.Nodup.dedup (hnodup st h), List.length_map]
  · intro prev inp
    simp only [run]
    apply hnodup
    simp only [apply_ite (fun s : Store => s.fact_occupation_element_rating),
      fact_load_stg_occupation, fact_load_stg_skills, fact_load_stg_knowledge,
      fact_load_stg_abilities, fact_load_stg_invalid_ska,
      fact_load_stg_level_scale_anchors, fact_load_stg_scales_reference,
      fact_load_dim_scale, fact_load_dim_major_group, fact_load_dim_occupation,
      fact_load_dim_element, fact_load_dim_element_scale_anchor, ite_self]
    simp [emptyStore]

/-- C2 witness: at a concrete store with an empty fact table, one
occupation and one staged skill, the post-load row count equals the
distinct-key count. -/
theorem fact_grain_uniqueness_witness :
    ((load_fact_occupation_element_rating stW).1.fact_occupation_element_rating).length =
      (((load_fact_occupation_element_rating stW).1.fact_occupation_element_rating).map
        factKey).dedup.length :=
  fact_grain_uniqueness.1 stW (by decide)

/-- C3: `load_fact_occupation_element_rating` returns the total number
of staged rating rows (across the three domains) that join to
`dim_occupation`; the final fact row at any key is the last joined row
with that key — so on conflict every measurement/metadata field is
overwritten with the incoming value — while keys without an incoming
row keep the prior row; rows with no occupation match contribute
nothing and no diagnostic record is written (`stg_invalid_ska` is
untouched). -/
theorem fact_promotion_contract (st : Store)
    (hnd : (st.dim_occupation.map DimOccRow.onetsoc_code).Nodup) :
    (load_fact_occupation_element_rating st).2 =
      matchedCount st.dim_occupation st.stg_skills +
        matchedCount st.dim_occupation st.stg_knowledge +
        matchedCount st.dim_occupation st.stg_abilities ∧
    (∀ k : Nat × String × String,
      ((load_fact_occupation_element_rating st).1.fact_occupation_element_rating).find?
          (fun x => decide (factKey x = k)) =
        lastUpsert factKey
          (joinFact st.dim_occupation st.stg_skills ++
            (joinFact st.dim_occupation st.stg_knowledge ++
             joinFact st.dim_occupation st.stg_abilities))
          st.fact_occupation_element_rating k) ∧
    (load_fact_occupation_element_rating st).1.stg_invalid_ska = st.stg_invalid_ska := by
  refine ⟨?_, ?_, rfl⟩
  · simp only [load_fact_occupation_element_rating]
    rw [joinFact_length _ _ hnd, joinFact_length _ _ hnd, joinFact_length _ _ hnd]
  · intro k
    simp only [load_fact_occupation_element_rating]
    rw [← List.foldl_append, ← List.foldl_append]
    exact find?_foldl_upsertBy factKey updFact factKey_updFact updFact_eq _ _ k

/-- C3 witness: the promotion contract instantiated at a concrete store
(one occupation row, one staged skill) and the key of the joined row. -/
theorem fact_promotion_contract_witness :
    (load_fact_occupation_element_rating stW).2 =
      matchedCount stW.dim_occupation stW.stg_skills +
        matchedCount stW.dim_occupation stW.stg_knowledge +
        matchedCount stW.dim_occupation stW.stg_abilities ∧
    ((load_fact_occupation_element_rating stW).1.fact_occupation_element_rating).find?
        (fun x => decide (factKey x = (1, "2.A.1.a", "IM"))) =
      lastUpsert factKey
        (joinFact stW.dim_occupation stW.stg_skills ++
          (joinFact stW.dim_occupation stW.stg_knowledge ++
           joinFact stW.dim_occupation stW.stg_abilities))
        stW.fact_occupation_element_rating (1, "2.A.1.a", "IM") ∧
    (load_fact_occupation_element_rating stW).1.stg_invalid_ska = stW.stg_invalid_ska := by
  obtain ⟨h1, h2, h3⟩ := fact_promotion_contract stW (by decide)
  exact ⟨h1, h2 (1, "2.A.1.a", "IM"), h3⟩

/-- C6: every anchor row present after `load_dim_element_scale_anchor`
either shares its natural key with a pre-existing row or passed the
referential gate (its element exists in `dim_element` and its scale in
`dim_scale`); and lookups at keys not produced by the gated join are
unchanged — so no anchor whose element or scale is absent is ever
promoted, and a key conflict only refreshes the description (the
natural key comprises every other column). -/
theorem anchor_referential_gate (st : Store) :
    (∀ r ∈ (load_dim_element_scale_anchor st).1.dim_element_scale,
      (∃ p ∈ st.dim_element_scale, akey p = akey r) ∨
        ((st.dim_element.any (fun e => e.element_id == r.element_id)) = true ∧
         (st.dim_scale.any (fun s2 => s2.scale_id == r.scale_id)) = true)) ∧
    (∀ k : String × String × Option Rat, k ∉ (anchorJoined st).map akey →
      ((load_dim_element_scale_anchor st).1.dim_element_scale).find?
          (fun x => decide (akey x = k)) =
        st.dim_element_scale.find? (fun x => decide (akey x = k))) := by
  constructor
  · intro r hr
    have hk : akey r ∈ ((load_dim_element_scale_anchor st).1.dim_element_scale).map akey :=
      List.mem_map_of_mem akey hr
    simp only [load_dim_element_scale_anchor] at hk
    rcases mem_map_key_foldl_upsertBy akey updAnchor akey_updAnchor _ _ _ hk with h2 | h2
    · obtain ⟨p, hp, hpk⟩ := List.mem_map.mp h2
      exact Or.inl ⟨p, hp, hpk⟩
    · obtain ⟨j, hj, hjk⟩ := List.mem_map.mp h2
      obtain ⟨he, hs⟩ := anchorJoined_gate st j hj
      simp only [akey, Prod.mk.injEq] at hjk
      obtain ⟨h1, h2x, _⟩ := hjk
      exact Or.inr ⟨h1 ▸ he, h2x ▸ hs⟩
  · intro k hk
    simp only [load_dim_element_scale_anchor]
    rw [find?_foldl_upsertBy akey updAnchor akey_updAnchor updAnchor_eq]
    have hnone : (anchorJoined st).reverse.find? (fun j => decide (akey j = k)) = none := by
      rw [List.find?_eq_none]
      intro j hj
      simp only [decide_eq_true_eq]
      intro hjk
      exact hk (hjk ▸ List.mem_map_of_mem akey (List.mem_reverse.mp hj))
    simp only [lastUpsert]
    rw [hnone]

/-- C6 witness: at a concrete store whose dimensions cover the staged
anchor, the promoted anchor passed both gates (the prior anchor
dimension being empty rules out the pre-existing-key case). -/
theorem anchor_referential_gate_witness :
    (stW6.dim_element.any (fun e => e.element_id == aW.element_id)) = true ∧
    (stW6.dim_scale.any (fun s2 => s2.scale_id == aW.scale_id)) = true := by
  rcases (anchor_referential_gate stW6).1 aW (by decide) with h | h
  · obtain ⟨p, hp, _⟩ := h
    simp [stW6, emptyStore] at hp
  · exact h

/-- Mapping a pointwise-identity function leaves a list unchanged. -/
theorem map_eq_self {α : Type} (f : α → α) (l : List α) (h : ∀ x, f x = x) :
    l.map f = l := by
  induction l with
  | nil => rfl
  | cons a as ih => simp only [List.map_cons, h, ih]

/-- C7 (amended): after `load_dim_scale_from_staging`, every `dim_scale`
row has scale id `IM` or `LV`; there is exactly one row per distinct
`(scale_id, scale_name)` pair with allowed id present in staging (the
`GROUP BY scale_id, scale_name` grain — one row per allowed *id* only
when each allowed id carries a single name); prior `dim_scale` contents
are fully replaced (the result depends only on the staging table); and
the function returns the resulting row count. -/
theorem scale_dim_rebuild (st : Store) :
    (∀ r ∈ (load_dim_scale_from_staging st).1.dim_scale,
      r.scale_id = "IM" ∨ r.scale_id = "LV") ∧
    (((load_dim_scale_from_staging st).1.dim_scale.map
        (fun r => (r.scale_id, r.name))).Nodup) ∧
    (∀ p ∈ st.stg_scales_reference, allowedScale p.scale_id = true →
      ((load_dim_scale_from_staging st).1.dim_scale.any
        (fun r => r.scale_id == p.scale_id && r.name == p.scale_name)) = true) ∧
    (∀ st2 : Store, st2.stg_scales_reference = st.stg_scales_reference →
      (load_dim_scale_from_staging st2).1.dim_scale =
        (load_dim_scale_from_staging st).1.dim_scale) ∧
    (load_dim_scale_from_staging st).2 =
      (load_dim_scale_from_staging st).1.dim_scale.length := by
  refine ⟨?_, ?_, ?_, ?_, rfl⟩
  · intro r hr
    simp only [load_dim_scale_from_staging, scaleGroupRows] at hr
    obtain ⟨kk, hk, hr⟩ := List.mem_map.mp hr
    have hkmem := mem_of_mem_dedupFirstAux _ _ _ hk
    obtain ⟨f, hf, hfk⟩ := List.mem_map.mp hkmem
    have hfa := (List.mem_filter.mp hf).2
    subst hr
    show kk.1 = "IM" ∨ kk.1 = "LV"
    have h1 : kk.1 = f.scale_id := (congrArg Prod.fst hfk).symm
    rw [h1]
    simpa [allowedScale] using hfa
  · have hmap : ((load_dim_scale_from_staging st).1.dim_scale.map
        (fun r => (r.scale_id, r.name))) =
        dedupFirst ((st.stg_scales_reference.filter
          (fun r => allowedScale r.scale_id)).map
            (fun r => (r.scale_id, r.scale_name))) := by
      simp only [load_dim_scale_from_staging, scaleGroupRows, List.map_map]
      exact map_eq_self _ _ (fun x => rfl)
    rw [hmap]
    exact nodup_dedupFirstAux _ _
  · intro p hp ha
    simp only [load_dim_scale_from_staging, scaleGroupRows]
    apply List.any_eq_true.mpr
    have hpair : (p.scale_id, p.scale_name) ∈
        (st.stg_scales_reference.filter (fun r => allowedScale r.scale_id)).map
          (fun r => (r.scale_id, r.scale_name)) :=
      List.mem_map_of_mem _ (List.mem_filter.mpr ⟨hp, ha⟩)
    have hk := mem_dedupFirstAux_of_mem _ [] _ hpair (by simp)
    exact ⟨_, List.mem_map_of_mem _ hk, by simp⟩
  · intro st2 h2
    show scaleGroupRows st2.stg_scales_reference = scaleGroupRows st.stg_scales_reference
    rw [h2]

/-- C7 counterexample: with scale id `IM` staged under two scale names,
`load_dim_scale_from_staging` emits two `IM` rows — refuting "exactly
one row per allowed scale id present in staging" as stated. -/
theorem scale_dim_rebuild_counterexample :
    ("IM" ∈ storeC7.stg_scales_reference.map ScaleRefRow.scale_id) ∧
    ¬ (((load_dim_scale_from_staging storeC7).1.dim_scale.filter
          (fun r => r.scale_id == "IM")).length = 1) := by decide

/-- C7 witness: the amended contract instantiated at the two-name
store — distinct `(id, name)` grain, presence of the staged pair, and
the returned count. -/
theorem scale_dim_rebuild_witness :
    (((load_dim_scale_from_staging storeC7).1.dim_scale.map
        (fun r => (r.scale_id, r.name))).Nodup) ∧
    ((load_dim_scale_from_staging storeC7).1.dim_scale.any
        (fun r => r.scale_id == "IM" && r.name == "A")) = true ∧
    (load_dim_scale_from_staging storeC7).2 =
      (load_dim_scale_from_staging storeC7).1.dim_scale.length := by
  obtain ⟨_, hb, hc, _, he⟩ := scale_dim_rebuild storeC7
  exact ⟨hb, hc ⟨"IM", "A", some 1, some 5⟩ (by decide) (by decide), he⟩

/-- C8 (amended): loader replace semantics. `load_stg_occupation` and
`load_stg_invalid_ska` always clear first, so the staging area equals
exactly the passed records (empty included) and the count is returned;
the other staging loaders clear-then-insert only on non-empty input —
on an empty input they return 0 and leave the store (including any
prior staging rows) untouched. -/
theorem stg_loader_contract (st : Store) (occ : List OccClean)
    (sks kns abs2 : List CleanSKA) (ans : List AnchorRow)
    (srs : List ScaleRefRow) (inv : List InvalidSKA) :
    ((load_stg_occupation st occ).1.stg_occupation_data =
        occ.map (fun r => ⟨r.onetsoc_code, r.title, r.description⟩) ∧
      (load_stg_occupation st occ).2 = occ.length) ∧
    ((load_stg_invalid_ska st inv).1.stg_invalid_ska = inv.map toInvalidStgRow ∧
      (load_stg_invalid_ska st inv).2 = inv.length) ∧
    (sks ≠ [] →
      (load_stg_skills st sks).1.stg_skills = sks.map toStgRow ∧
        (load_stg_skills st sks).2 = sks.length) ∧
    (sks = [] →
      (load_stg_skills st sks).1 = st ∧ (load_stg_skills st sks).2 = 0) ∧
    (kns ≠ [] →
      (load_stg_knowledge st kns).1.stg_knowledge = kns.map toStgRow ∧
        (load_stg_knowledge st kns).2 = kns.length) ∧
    (kns = [] →
      (load_stg_knowledge st kns).1 = st ∧ (load_stg_knowledge st kns).2 = 0) ∧
    (abs2 ≠ [] →
      (load_stg_abilities st abs2).1.stg_abilities = abs2.map toStgRow ∧
        (load_stg_abilities st abs2).2 = abs2.length) ∧
    (abs2 = [] →
      (load_stg_abilities st abs2).1 = st ∧ (load_stg_abilities st abs2).2 = 0) ∧
    (ans ≠ [] →
      (load_stg_level_scale_anchors st ans).1.stg_level_scale_anchors = ans ∧
        (load_stg_level_scale_anchors st ans).2 = ans.length) ∧
    (ans = [] →
      (load_stg_level_scale_anchors st ans).1 = st ∧
        (load_stg_level_scale_anchors st ans).2 = 0) ∧
    (srs ≠ [] →
      (load_stg_scales_reference st srs).1.stg_scales_reference = srs ∧
        (load_stg_scales_reference st srs).2 = srs.length) ∧
    (srs = [] →
      (load_stg_scales_reference st srs).1 = st ∧
        (load_stg_scales_reference st srs).2 = 0) := by
  refine ⟨⟨rfl, rfl⟩, ⟨rfl, rfl⟩, ?_, ?_, ?_, ?_, ?_, ?_, ?_, ?_, ?_, ?_⟩ <;>
    intro h <;>
    simp [load_stg_skills, load_stg_knowledge, load_stg_abilities,
      load_stg_level_scale_anchors, load_stg_scales_reference, h]

/-- C8 counterexample: calling `load_stg_skills` with the empty record
list on a store holding a prior staged skill leaves that prior row in
place — the staging table does not equal the (empty) passed records,
refuting the claim for "every loader … including the empty sequence". -/
theorem stg_loader_contract_counterexample :
    (load_stg_skills storeC8 []).2 = 0 ∧
    (load_stg_skills storeC8 []).1.stg_skills = [sampleStg] ∧
    [sampleStg] ≠ ([] : List StgSKARow) := by decide

/-- C8 witness: the amended contract applied at a concrete store —
non-empty input replaces the skills staging; empty input leaves the
store untouched. -/
theorem stg_loader_contract_witness :
    (load_stg_skills storeC8 [cSample]).1.stg_skills = [cSample].map toStgRow ∧
    (load_stg_skills storeC8 []).1 = storeC8 := by
  refine ⟨((stg_loader_contract storeC8 [] [cSample] [] [] [] [] []).2.2.1
    (by decide)).1, ?_⟩
  exact ((stg_loader_contract storeC8 [] [] [] [] [] [] []).2.2.2.1 rfl).1
